import Mathlib

/-!
Verification of the OpenMemory adapter
(`src/google/adk/memory/open_memory_service.py`).

The Python module is embedded shallowly:

* Python strings are `List Char` (`Str`); the regex character class `\s`
  (Unicode mode, the default for `str` patterns) and `str.strip()` are
  modelled by the exact whitespace set of `str.isspace()`.
* Python floats used as salience weights and timestamps are modelled by
  `ℚ`; the adapter never performs arithmetic on them, it only selects
  and copies them.
* dictionaries whose key set is fixed by the code are structures;
  dictionaries with a dynamic shape (the decoded JSON of a backend
  match, the search payload) are ordered association lists.
* the two outbound HTTP endpoints are oracles: the write path gets a
  `post : Nat → Bool` giving the outcome of each POST in order, the
  read path gets a `SearchOutcome` (transport failure, or the decoded
  `matches` list).  `raise_for_status` failures and transport errors
  are both a `false` / `.failure` outcome.
* the external collaborator `_utils.format_timestamp` (not part of the
  sources) is an opaque parameter `fmt : ℚ → Str`.
-/

namespace OpenMemory

/-- Python strings, as lists of characters. -/
abbrev Str := List Char

/-- Characters counted as whitespace by Python: exactly the set
matched by the regex class `\s` on `str` patterns (Unicode mode, the
default), removed by `str.strip()`, and accepted by `str.isspace()` —
U+0009-U+000D, U+001C-U+0020, U+0085, U+00A0, U+1680, U+2000-U+200A,
U+2028, U+2029, U+202F, U+205F and U+3000. -/
def isSpaceChar (c : Char) : Bool :=
  ('\x09' ≤ c && c ≤ '\x0d') || ('\x1c' ≤ c && c ≤ '\x20') ||
  c == '\x85' || c == '\xa0' || c == '\u1680' ||
  ('\u2000' ≤ c && c ≤ '\u200a') || c == '\u2028' || c == '\u2029' ||
  c == '\u202f' || c == '\u205f' || c == '\u3000'

/-- Python `str.strip()`: remove leading and trailing whitespace. -/
def pyStrip (s : Str) : Str :=
  ((s.dropWhile isSpaceChar).reverse.dropWhile isSpaceChar).reverse

/-- Python `str.lower()` (ASCII behaviour). -/
def pyLower (s : Str) : Str := s.map Char.toLower

/-- Literal `"user"` compared against the lowered author. -/
def userWord : Str := "user".data

/-- Literal `"model"` compared against the lowered author. -/
def modelWord : Str := "model".data

/-- Literal `"Author: "` written before the author in the prefix. -/
def authorPre : Str := "Author: ".data

/-- Literal `"Time: "` written before the timestamp in the prefix. -/
def timePre : Str := "Time: ".data

/-- Literal `", "` joining the metadata parts. -/
def commaSep : Str := ", ".data

/-- Literal tag head `"session:"`. -/
def sessionTagHead : Str := "session:".data

/-- Literal tag head `"app:"`. -/
def appTagHead : Str := "app:".data

/-- Literal tag head `"author:"`. -/
def authorTagHead : Str := "author:".data

/-- JSON key `"user_id"`. -/
def userIdKey : Str := "user_id".data

/-- JSON key `"tags"`. -/
def tagsKey : Str := "tags".data

/-- JSON key `"query"`. -/
def queryKey : Str := "query".data

/-- JSON key `"k"`. -/
def kKey : Str := "k".data

/-- JSON key `"filter"`. -/
def filterKey : Str := "filter".data

/-- JSON key `"content"`. -/
def contentKey : Str := "content".data

/-- Configuration value object (`OpenMemoryServiceConfig`, lines 372-389).
Pydantic `Field` bounds are modelled by `configValid` below. -/
structure OpenMemoryServiceConfig where
  search_top_k : Nat := 10
  timeout : ℚ := 30
  user_content_salience : ℚ := 8/10
  model_content_salience : ℚ := 7/10
  default_salience : ℚ := 6/10
  enable_metadata_tags : Bool := true
deriving DecidableEq

/-- Bounds enforced by the pydantic `Field` declarations. -/
def configValid (cfg : OpenMemoryServiceConfig) : Prop :=
  1 ≤ cfg.search_top_k ∧ cfg.search_top_k ≤ 100 ∧ 0 < cfg.timeout ∧
  0 ≤ cfg.user_content_salience ∧ cfg.user_content_salience ≤ 1 ∧
  0 ≤ cfg.model_content_salience ∧ cfg.model_content_salience ≤ 1 ∧
  0 ≤ cfg.default_salience ∧ cfg.default_salience ≤ 1

/-- Default configuration (all pydantic defaults). -/
def defaultConfig : OpenMemoryServiceConfig := {}

/-- One content part; `text = none` models a part holding a non-text
payload (e.g. a function call), `some []` an explicitly empty text. -/
structure Part where
  text : Option Str
deriving DecidableEq

/-- Event content: a sequence of parts. -/
structure Content where
  parts : List Part
deriving DecidableEq

/-- One session event.  `author = []` models a falsy author and
`timestamp = 0` a falsy timestamp, matching the Python truthiness
tests in `_prepare_memory_data`. -/
structure Event where
  id : Str
  invocation_id : Str
  author : Str
  timestamp : ℚ
  content : Option Content
deriving DecidableEq

/-- A session: identifiers plus the ordered list of events. -/
structure Session where
  id : Str
  app_name : Str
  user_id : Str
  events : List Event
deriving DecidableEq

/-- Embeds `_determine_salience` (lines 92-110): case-insensitive
lookup on the author with a default for falsy/unknown authors. -/
def _determine_salience (cfg : OpenMemoryServiceConfig)
    (author : Option Str) : ℚ :=
  match author with
  | none => cfg.default_salience
  | some a =>
    if a = [] then cfg.default_salience
    else if pyLower a = userWord then cfg.user_content_salience
    else if pyLower a = modelWord then cfg.model_content_salience
    else cfg.default_salience

/-- Embeds `_extract_text_from_event` (lines 391-404): space-joined
concatenation of the truthy `text` fields of the content parts. -/
def _extract_text_from_event (event : Event) : Str :=
  match event.content with
  | none => []
  | some content =>
    if content.parts = [] then []
    else
      List.intercalate [' ']
        (content.parts.filterMap fun p =>
          match p.text with
          | some t => if t = [] then none else some t
          | none => none)

/-- Embeds the enrichment step of `_prepare_memory_data`
(lines 134-145): fold author and formatted timestamp into a bracketed
prefix of the content.  An empty `author` / `timestamp_str` models the
falsy (absent) case. -/
def enrichContent (author timestamp_str content_text : Str) : Str :=
  let metadata_parts : List Str :=
    (if author ≠ [] then [authorPre ++ author] else []) ++
    (if timestamp_str ≠ [] then [timePre ++ timestamp_str] else [])
  if metadata_parts = [] then content_text
  else ('[' :: List.intercalate commaSep metadata_parts) ++
    ']' :: ' ' :: content_text

/-- Structured metadata attached to a memory record (lines 148-157). -/
structure MemoryMetadata where
  app_name : Str
  user_id : Str
  session_id : Str
  event_id : Str
  invocation_id : Str
  author : Str
  timestamp : ℚ
  source : Str
deriving DecidableEq

/-- Result of `_prepare_memory_data` (lines 159-174); `tags = none`
models the absence of the `"tags"` key when tagging is disabled. -/
structure MemoryData where
  content : Str
  metadata : MemoryMetadata
  salience : ℚ
  tags : Option (List Str)
deriving DecidableEq

/-- Embeds `_prepare_memory_data` (lines 112-174). -/
def _prepare_memory_data (cfg : OpenMemoryServiceConfig) (fmt : ℚ → Str)
    (event : Event) (content_text : Str) (session : Session) : MemoryData :=
  let timestamp_str : Str :=
    if event.timestamp ≠ 0 then fmt event.timestamp else []
  let metadata : MemoryMetadata :=
    { app_name := session.app_name
      user_id := session.user_id
      session_id := session.id
      event_id := event.id
      invocation_id := event.invocation_id
      author := event.author
      timestamp := event.timestamp
      source := "adk_session".data }
  let rawTags : List (Option Str) :=
    [some (sessionTagHead ++ session.id),
     some (appTagHead ++ session.app_name),
     if event.author ≠ [] then some (authorTagHead ++ event.author)
     else none]
  { content := enrichContent event.author timestamp_str content_text
    metadata := metadata
    salience := _determine_salience cfg (some event.author)
    tags :=
      if cfg.enable_metadata_tags then
        some ((rawTags.filterMap id).filter fun t => !(t == []))
      else none }

/-- The JSON body POSTed to `/memory/add` (lines 206-212).  The key set
is fixed by the code, so it is a structure; note that the `tags` key is
always present there (absent tags become `[]` via `.get("tags", [])`). -/
structure AddPayload where
  content : Str
  tags : List Str
  metadata : MemoryMetadata
  salience : ℚ
  user_id : Str
deriving DecidableEq

/-- Payload POSTed for one event, as assembled in the loop body of
`add_session_to_memory` (lines 199-212). -/
def payloadOf (cfg : OpenMemoryServiceConfig) (fmt : ℚ → Str)
    (session : Session) (event : Event) : AddPayload :=
  let memory_data :=
    _prepare_memory_data cfg fmt event (_extract_text_from_event event) session
  { content := memory_data.content
    tags := memory_data.tags.getD []
    metadata := memory_data.metadata
    salience := memory_data.salience
    user_id := session.user_id }

/-- Event loop of `add_session_to_memory` (lines 194-224).  `post i`
is the outcome of the i-th POST actually issued (`false` covering both
a transport failure and a non-2xx status raised by
`raise_for_status`); the exception is caught and the loop continues.
Returns the ordered list of issued payloads and `memories_added`. -/
def addGo (cfg : OpenMemoryServiceConfig) (fmt : ℚ → Str)
    (session : Session) (post : Nat → Bool) :
    List Event → Nat → List AddPayload × Nat
  | [], _ => ([], 0)
  | event :: rest, i =>
    let content_text := _extract_text_from_event event
    if content_text = [] then addGo cfg fmt session post rest i
    else
      let memory_data := _prepare_memory_data cfg fmt event content_text session
      let payload : AddPayload :=
        { content := memory_data.content
          tags := memory_data.tags.getD []
          metadata := memory_data.metadata
          salience := memory_data.salience
          user_id := session.user_id }
      let r := addGo cfg fmt session post rest (i + 1)
      (payload :: r.1, (if post i then 1 else 0) + r.2)

/-- Embeds `add_session_to_memory` (lines 176-228): processes every
event of the session in order; the result is the ordered list of
payloads POSTed to `/memory/add` and the count of successful adds.
Totality of this function reflects that the method never raises. -/
def add_session_to_memory (cfg : OpenMemoryServiceConfig) (fmt : ℚ → Str)
    (session : Session) (post : Nat → Bool) : List AddPayload × Nat :=
  addGo cfg fmt session post session.events 0

/-- Values appearing in the `filter` object of the query payload. -/
inductive FVal where
  | fstr : Str → FVal
  | ftags : List Str → FVal
deriving DecidableEq

/-- Values appearing at the top level of the query payload. -/
inductive PVal where
  | pstr : Str → PVal
  | pnat : Nat → PVal
  | pfilter : List (Str × FVal) → PVal
deriving DecidableEq

/-- Ordered-dictionary lookup (Python `d[k]` on a decoded JSON object). -/
def dictGet {α : Type} (d : List (Str × α)) (k : Str) : Option α :=
  (d.find? fun p => p.1 == k).map fun p => p.2

/-- The `filter` object built by `_build_search_payload`
(lines 243-254): `user_id` always, `tags` appended iff tagging is
enabled. -/
def searchFilter (cfg : OpenMemoryServiceConfig)
    (app_name user_id : Str) : List (Str × FVal) :=
  let f : List (Str × FVal) := [(userIdKey, FVal.fstr user_id)]
  if cfg.enable_metadata_tags then
    f ++ [(tagsKey, FVal.ftags [appTagHead ++ app_name])]
  else f

/-- Embeds `_build_search_payload` (lines 230-256), as the final value
of the mutated payload dictionary, in insertion order. -/
def _build_search_payload (cfg : OpenMemoryServiceConfig)
    (app_name user_id query : Str) : List (Str × PVal) :=
  [(queryKey, PVal.pstr query),
   (kKey, PVal.pnat cfg.search_top_k),
   (filterKey, PVal.pfilter (searchFilter cfg app_name user_id))]

/-- Matching of the anchored regex
`re.match(r'^\[([^\]]+)\]\s+(.*)', raw, re.DOTALL)` from
`_convert_to_memory_entry` (line 277).  The pattern is deterministic:
the metadata group is the non-empty run up to the first `]`, `\s+`
then greedily eats the maximal whitespace run and `(.*)` takes the
rest.  Returns `(group 1, group 2)` on a match. -/
def bracketSplit (raw : Str) : Option (Str × Str) :=
  match raw with
  | [] => none
  | c :: rest =>
    if c = '[' then
      if rest.takeWhile (fun d => !(d == ']')) = [] then none
      else
        match rest.dropWhile (fun d => !(d == ']')) with
        | [] => none
        | _ :: rest3 =>
          if rest3.takeWhile isSpaceChar = [] then none
          else some (rest.takeWhile (fun d => !(d == ']')),
            rest3.dropWhile isSpaceChar)
    else none

/-- Attempted match of `\s*([^,\]]+)` at a fixed position, as the regex
engine runs it: `\s*` is greedy and backtracks one character at a time
until the capture group can take at least one character (whitespace
itself is admissible in the group, so on backtracking the group
captures exactly the last whitespace character). -/
def capAfterLabel (r : Str) : Option Str :=
  let w := r.takeWhile isSpaceChar
  match r.dropWhile isSpaceChar with
  | [] => w.getLast?.map fun c => [c]
  | c :: r3 =>
    if c = ',' ∨ c = ']' then w.getLast?.map fun c => [c]
    else some ((c :: r3).takeWhile fun d => !(d == ',') && !(d == ']'))

/-- Embeds `re.search(label + r'\s*([^,\]]+)', s)`: scan left to right
for an occurrence of the literal `label` whose continuation admits a
capture, and return the captured group (lines 283-290 use it with
labels `Author:` and `Time:`). -/
def searchLabel (label : Str) : Str → Option Str
  | [] => none
  | c :: rest =>
    if label <+: (c :: rest) then
      match capAfterLabel ((c :: rest).drop label.length) with
      | some cap => some cap
      | none => searchLabel label rest
    else searchLabel label rest

/-- Literal search label `"Author:"`. -/
def authorLabel : Str := "Author:".data

/-- Literal search label `"Time:"`. -/
def timeLabel : Str := "Time:".data

/-- Parsing of enriched content (lines 270-290): strip a bracketed
prefix if one matches, then extract the stripped `Author:` and `Time:`
captures from the metadata group.  Returns
`(author, timestamp, clean_content)`. -/
def parseEnriched (raw : Str) : Option Str × Option Str × Str :=
  match bracketSplit raw with
  | none => (none, none, raw)
  | some (meta, clean) =>
    ((searchLabel authorLabel meta).map pyStrip,
     (searchLabel timeLabel meta).map pyStrip, clean)

/-- JSON values found in a backend match object.  Only the `content`
key is ever read; any non-string value there makes the regex call
raise `TypeError`. -/
inductive MVal where
  | mstr : Str → MVal
  | mnum : ℚ → MVal
  | mbool : Bool → MVal
  | mnull : MVal
deriving DecidableEq

/-- A decoded backend match: an ordered JSON object. -/
abbrev MatchItem := List (Str × MVal)

/-- The memory entry returned to the caller (`MemoryEntry`, lines
293-299): a single text part holding the clean content. -/
structure MemoryEntry where
  content : Content
  author : Option Str
  timestamp : Option Str
deriving DecidableEq

/-- Outcome of `_convert_to_memory_entry` on one match.  `dropped`
is the `return None` path of the `except (KeyError, ValueError)`
handler; `raised` is an exception that the handler does not catch
(the `TypeError` raised by `re.match` on a non-string `content`). -/
inductive ConvResult where
  | ok : MemoryEntry → ConvResult
  | dropped : ConvResult
  | raised : ConvResult
deriving DecidableEq

/-- Embeds `_convert_to_memory_entry` (lines 258-302): a missing
`content` key raises `KeyError`, caught by the handler; a non-string
`content` raises `TypeError` in `re.match`, which the handler does not
catch. -/
def _convert_to_memory_entry (result : MatchItem) : ConvResult :=
  match dictGet result contentKey with
  | none => ConvResult.dropped
  | some (MVal.mstr raw_content) =>
    match parseEnriched raw_content with
    | (author, timestamp, clean_content) =>
      ConvResult.ok
        { content := { parts := [{ text := some clean_content }] }
          author := author
          timestamp := timestamp }
  | some _ => ConvResult.raised

/-- Match loop of `search_memory` (lines 350-353): accumulate the
successful conversions in order; an uncaught exception aborts the
whole loop (`none`), discarding entries already accumulated. -/
def processMatches : List MatchItem → Option (List MemoryEntry)
  | [] => some []
  | m :: rest =>
    match _convert_to_memory_entry m with
    | ConvResult.ok e => (processMatches rest).map fun l => e :: l
    | ConvResult.dropped => processMatches rest
    | ConvResult.raised => none

/-- Outcome of the POST to `/memory/query`: a transport failure or
non-2xx status, or the decoded `result.get("matches", [])` list. -/
inductive SearchOutcome where
  | failure : SearchOutcome
  | success : List MatchItem → SearchOutcome

/-- Search result wrapper (`SearchMemoryResponse`). -/
structure SearchMemoryResponse where
  memories : List MemoryEntry
deriving DecidableEq

/-- Embeds `search_memory` (lines 304-360): any exception inside the
`try` block — transport failure, non-2xx status, or an uncaught
conversion error — lands in the `except Exception` handler, which
returns an empty response.  Totality of this function reflects that
the method never raises. -/
def search_memory (cfg : OpenMemoryServiceConfig)
    (app_name user_id query : Str) (outcome : SearchOutcome) :
    SearchMemoryResponse :=
  let _payload := _build_search_payload cfg app_name user_id query
  match outcome with
  | SearchOutcome.failure => { memories := [] }
  | SearchOutcome.success ms =>
    match processMatches ms with
    | some memories => { memories := memories }
    | none => { memories := [] }

/-- Conversions kept by the match loop: the `ok` results. -/
def convOk (m : MatchItem) : Option MemoryEntry :=
  match _convert_to_memory_entry m with
  | ConvResult.ok e => some e
  | _ => none

/-! Concrete data used by the witness theorems. -/

/-- Sample text of the first event. -/
def litTextA : Str := "Hello, I like Python.".data

/-- Sample text of the second event. -/
def litTextB : Str := "Python is great.".data

/-- Sample application name. -/
def litApp : Str := "test-app".data

/-- Sample user id. -/
def litUserId : Str := "test-user".data

/-- Sample session id. -/
def litSessionId : Str := "session-1".data

/-- Sample event id. -/
def litE1 : Str := "event-1".data

/-- Sample event id. -/
def litE2 : Str := "event-2".data

/-- Sample invocation id. -/
def litInv1 : Str := "inv-1".data

/-- Sample invocation id. -/
def litInv2 : Str := "inv-2".data

/-- Sample formatted timestamp. -/
def litTime : Str := "2025-11-04 10:30".data

/-- Sample raw text that itself starts with a bracketed segment. -/
def cexText : Str := "[note] hi".data

/-- Sample bracket segment. -/
def litNote : Str := "note".data

/-- Sample clean content. -/
def litHello : Str := "hello".data

/-- First sample event: a user turn with one text part. -/
def wEvent1 : Event :=
  { id := litE1, invocation_id := litInv1, author := userWord,
    timestamp := 0,
    content := some { parts := [{ text := some litTextA }] } }

/-- Second sample event: a model turn with one text part. -/
def wEvent2 : Event :=
  { id := litE2, invocation_id := litInv2, author := modelWord,
    timestamp := 0,
    content := some { parts := [{ text := some litTextB }] } }

/-- Sample session with two valid events. -/
def wSession : Session :=
  { id := litSessionId, app_name := litApp, user_id := litUserId,
    events := [wEvent1, wEvent2] }

/-- POST oracle making the first request fail and the rest succeed. -/
def failFirstPost : Nat → Bool := fun i => i != 0

/-- Timestamp formatter returning an empty string (never consulted by
the sample events, whose timestamps are falsy). -/
def noFmt : ℚ → Str := fun _ => []

/-- Well-formed backend match carrying `litTextA`. -/
def wMatchA : MatchItem := [(contentKey, MVal.mstr litTextA)]

/-- Well-formed backend match carrying `litTextB`. -/
def wMatchB : MatchItem := [(contentKey, MVal.mstr litTextB)]

/-- Malformed backend match: no `content` key. -/
def wMatchNoContent : MatchItem := [(tagsKey, MVal.mstr litTextB)]

/-- Backend match whose `content` is a number, not a string. -/
def wMatchNum : MatchItem := [(contentKey, MVal.mnum 42)]

/-- Sample author spelled in upper case. -/
def litUserUpper : Str := "USER".data

/-- Sample author spelled in mixed case. -/
def litModelCap : Str := "Model".data

/-- Sample author that is neither user nor model. -/
def litSystem : Str := "system".data

/-- Entry produced by converting `wMatchA`. -/
def wEntryA : MemoryEntry :=
  { content := { parts := [{ text := some litTextA }] },
    author := none, timestamp := none }

/-- Entry produced by converting `wMatchB`. -/
def wEntryB : MemoryEntry :=
  { content := { parts := [{ text := some litTextB }] },
    author := none, timestamp := none }

/-- Cleanliness condition on an author or formatted-timestamp field
under which the enriched-content round-trip can recover it: non-empty,
fixed by `strip()`, and free of the structural characters `,` and
`]`. -/
def cleanField (s : Str) : Prop :=
  s ≠ [] ∧ pyStrip s = s ∧ ',' ∉ s ∧ ']' ∉ s

instance (s : Str) : Decidable (cleanField s) := by
  unfold cleanField; infer_instance

/-! Helper lemmas about the text-scanning primitives. -/

/-- A list with an empty `takeWhile` is untouched by `dropWhile`. -/
theorem takeWhile_nil_dropWhile {p : Char → Bool} {s : Str}
    (h : s.takeWhile p = []) : s.dropWhile p = s := by
  cases s with
  | nil => rfl
  | cons c t =>
    cases hp : p c with
    | true => rw [List.takeWhile_cons_of_pos hp] at h; cases h
    | false => exact List.dropWhile_cons_of_neg (by simp [hp])

/-- A string unchanged by `strip()` has no leading whitespace. -/
theorem pyStrip_fix_take_nil {s : Str} (h : pyStrip s = s) :
    s.takeWhile isSpaceChar = [] := by
  have hlen : s.length = (pyStrip s).length := by rw [h]
  have h1 : (pyStrip s).length ≤ (s.dropWhile isSpaceChar).length := by
    unfold pyStrip
    rw [List.length_reverse]
    calc ((s.dropWhile isSpaceChar).reverse.dropWhile isSpaceChar).length
        ≤ (s.dropWhile isSpaceChar).reverse.length :=
          (List.dropWhile_sublist _).length_le
      _ = (s.dropWhile isSpaceChar).length := List.length_reverse _
  have h2 : (s.dropWhile isSpaceChar).length = s.length :=
    Nat.le_antisymm (List.dropWhile_sublist _).length_le (hlen ▸ h1)
  have h3 : s.dropWhile isSpaceChar = s :=
    (List.dropWhile_sublist isSpaceChar).eq_of_length h2
  have h4 := List.takeWhile_append_dropWhile isSpaceChar (l := s)
  rw [h3] at h4
  have h5 := congrArg List.length h4
  simp only [List.length_append] at h5
  exact List.eq_nil_of_length_eq_zero (by omega)

/-- Evaluation of the capture attempt on a clean field: the `\s*`
consumes the single separating space and the group captures exactly
the field, stopping at the following comma or at the end. -/
theorem capAfterLabel_clean {x : Str} (v : Str) (hx : x ≠ [])
    (hlead : x.takeWhile isSpaceChar = []) (hc : ',' ∉ x) (hb : ']' ∉ x)
    (hv : v = [] ∨ ∃ v', v = ',' :: v') :
    capAfterLabel (' ' :: (x ++ v)) = some x := by
  obtain ⟨c, t, rfl⟩ := List.exists_cons_of_ne_nil hx
  have hcs : isSpaceChar c = false := by
    cases hp : isSpaceChar c with
    | true => rw [List.takeWhile_cons_of_pos hp] at hlead; cases hlead
    | false => rfl
  have hcc : c ≠ ',' := fun hh => hc (hh ▸ List.mem_cons_self c t)
  have hcb : c ≠ ']' := fun hh => hb (hh ▸ List.mem_cons_self c t)
  have h2 : (' ' :: ((c :: t) ++ v)).dropWhile isSpaceChar = c :: (t ++ v) := by
    rw [List.dropWhile_cons_of_pos (by decide), List.cons_append]
    exact List.dropWhile_cons_of_neg (by simp [hcs])
  have hall : ∀ d ∈ c :: t, (!(d == ',') && !(d == ']')) = true := by
    intro d hd
    simp only [Bool.and_eq_true, Bool.not_eq_true', beq_eq_false_iff_ne]
    exact ⟨fun hh => hc (hh ▸ hd), fun hh => hb (hh ▸ hd)⟩
  unfold capAfterLabel
  rw [h2]
  simp only
  rw [if_neg (by rintro (rfl | rfl) <;> simp_all)]
  congr 1
  rw [← List.cons_append, List.takeWhile_append_of_pos hall]
  rcases hv with rfl | ⟨v', rfl⟩
  · simp
  · rw [List.takeWhile_cons_of_neg (by simp)]
    exact List.append_nil _

/-- The searched label is found at position 0 when it is a prefix and
its continuation admits a capture. -/
theorem searchLabel_here {label s cap : Str} (hs : s ≠ [])
    (hpre : label <+: s)
    (hcap : capAfterLabel (s.drop label.length) = some cap) :
    searchLabel label s = some cap := by
  obtain ⟨c, t, rfl⟩ := List.exists_cons_of_ne_nil hs
  simp only [searchLabel]
  rw [if_pos hpre, hcap]

/-- Scanning skips a whole region in which no occurrence of the label
starts. -/
theorem searchLabel_skip {label : Str} (u v : Str)
    (h : ∀ i, i < u.length → ¬ label <+: (u.drop i ++ v)) :
    searchLabel label (u ++ v) = searchLabel label v := by
  induction u with
  | nil => simp
  | cons c t ih =>
    have h0 : ¬ label <+: (c :: (t ++ v)) := by
      have hh := h 0 (by simp)
      simpa using hh
    rw [List.cons_append]
    simp only [searchLabel]
    rw [if_neg h0]
    exact ih fun i hi => by
      have hh := h (i + 1) (by simpa using Nat.succ_lt_succ hi)
      simpa using hh

/-- Scanning a string that contains no occurrence of the label at all
returns no capture. -/
theorem searchLabel_none_of_not_found {label s : Str}
    (h : ¬ label <:+: s) : searchLabel label s = none := by
  induction s with
  | nil => rfl
  | cons c t ih =>
    have h0 : ¬ label <+: (c :: t) := fun hp => h hp.isInfix
    simp only [searchLabel]
    rw [if_neg h0]
    exact ih fun hi => h (List.infix_cons hi)

/-- Evaluation of the anchored bracket regex on a string of the shape
`[<seg>]<ws><rest>`: the metadata group is `seg` and the content group
is `rest`. -/
theorem bracketSplit_eval {seg w r : Str} (hseg : seg ≠ []) (hsb : ']' ∉ seg)
    (hw : w ≠ []) (hwall : ∀ c ∈ w, isSpaceChar c = true)
    (hr : r.takeWhile isSpaceChar = []) :
    bracketSplit ('[' :: (seg ++ ']' :: (w ++ r))) = some (seg, r) := by
  have hallseg : ∀ c ∈ seg, (!(c == ']')) = true := by
    intro c hcm
    simp only [Bool.not_eq_true', beq_eq_false_iff_ne]
    exact fun hh => hsb (hh ▸ hcm)
  have hdw : (seg ++ ']' :: (w ++ r)).dropWhile (fun d => !(d == ']')) =
      ']' :: (w ++ r) := by
    rw [List.dropWhile_append_of_pos hallseg]
    exact List.dropWhile_cons_of_neg (by simp)
  have htw : (seg ++ ']' :: (w ++ r)).takeWhile (fun d => !(d == ']')) =
      seg := by
    rw [List.takeWhile_append_of_pos hallseg,
      List.takeWhile_cons_of_neg (by simp)]
    exact List.append_nil _
  have hws : (w ++ r).takeWhile isSpaceChar = w := by
    rw [List.takeWhile_append_of_pos hwall, hr]
    exact List.append_nil _
  have hwd : (w ++ r).dropWhile isSpaceChar = r := by
    rw [List.dropWhile_append_of_pos hwall]
    exact takeWhile_nil_dropWhile hr
  simp only [bracketSplit, htw, hdw, hws, hwd]
  simp [hseg, hw]

/-- In the region before the canonical `Time:` field no occurrence of
the label `Time:` can start, provided it does not occur in that region
as a substring: a straddling occurrence would place the label's `T`,
`i` or `m` on the comma, or its `T` on the final space. -/
theorem no_time_in_region {a : Str} (v : Str)
    (hni : ¬ timeLabel <:+: (authorPre ++ (a ++ commaSep))) :
    ∀ i, i < (authorPre ++ (a ++ commaSep)).length →
      ¬ timeLabel <+: ((authorPre ++ (a ++ commaSep)).drop i ++ v) := by
  intro i hi hp
  set u := authorPre ++ (a ++ commaSep) with hu
  by_cases h5 : i + 5 ≤ u.length
  · apply hni
    rw [List.infix_iff_prefix_suffix]
    refine ⟨u.drop i, ?_, List.drop_suffix i u⟩
    have hlen : timeLabel.length ≤ (u.drop i).length := by
      rw [List.length_drop]
      have h55 : timeLabel.length = 5 := by decide
      omega
    rw [List.prefix_iff_eq_take] at hp ⊢
    rw [List.take_append_of_le_length hlen] at hp
    exact hp
  · have h55 : timeLabel.length = 5 := by decide
    have hu2 : u = (authorPre ++ a) ++ [',', ' '] := by
      rw [hu, ← List.append_assoc]
      rfl
    have hw2 : u.length = (authorPre ++ a).length + 2 := by
      rw [hu2]
      simp only [List.length_append, List.length_cons, List.length_nil]
    have htL : timeLabel = 'T' :: 'i' :: 'm' :: 'e' :: ':' :: [] := by decide
    have halen : 8 ≤ (authorPre ++ a).length := by
      have h8 : authorPre.length = 8 := by decide
      simp only [List.length_append]
      omega
    rw [htL] at hp
    have hcase : u.length - i = 1 ∨ u.length - i = 2 ∨ u.length - i = 3 ∨
        u.length - i = 4 := by omega
    rcases hcase with hc | hc | hc | hc
    · have hieq : i = (authorPre ++ a).length + 1 := by omega
      have hdrop : u.drop i = [' '] := by
        rw [hu2, hieq, List.drop_append]
        rfl
      rw [hdrop] at hp
      rw [List.cons_append, List.cons_prefix_cons] at hp
      exact absurd hp.1 (by decide)
    · have hieq : i = (authorPre ++ a).length + 0 := by omega
      have hdrop : u.drop i = [',', ' '] := by
        rw [hu2, hieq, List.drop_append]
        rfl
      rw [hdrop] at hp
      simp only [List.cons_append, List.cons_prefix_cons] at hp
      exact absurd hp.1 (by decide)
    · have hieq : i ≤ (authorPre ++ a).length := by omega
      have hdrop : u.drop i = (authorPre ++ a).drop i ++ [',', ' '] := by
        rw [hu2, List.drop_append_of_le_length hieq]
      have hd1 : ((authorPre ++ a).drop i).length = 1 := by
        rw [List.length_drop]; omega
      obtain ⟨x, hx⟩ := List.length_eq_one.mp hd1
      rw [hdrop, hx] at hp
      simp only [List.cons_append, List.nil_append,
        List.cons_prefix_cons] at hp
      exact absurd hp.2.1 (by decide)
    · have hieq : i ≤ (authorPre ++ a).length := by omega
      have hdrop : u.drop i = (authorPre ++ a).drop i ++ [',', ' '] := by
        rw [hu2, List.drop_append_of_le_length hieq]
      have hd2 : ((authorPre ++ a).drop i).length = 2 := by
        rw [List.length_drop]; omega
      obtain ⟨x, y, hxy⟩ := List.length_eq_two.mp hd2
      rw [hdrop, hxy] at hp
      simp only [List.cons_append, List.nil_append,
        List.cons_prefix_cons] at hp
      exact absurd hp.2.2.1 (by decide)

/-- Shape of the enriched content when author and timestamp are both
present. -/
theorem enrich_both {a t : Str} (x : Str) (ha : a ≠ []) (ht : t ≠ []) :
    enrichContent a t x =
      '[' :: ((authorPre ++ (a ++ (commaSep ++ (timePre ++ t)))) ++
        ']' :: ' ' :: x) := by
  unfold enrichContent
  simp [ha, ht, List.intercalate, List.intersperse, List.append_assoc]

/-- Shape of the enriched content when only the author is present. -/
theorem enrich_author {a : Str} (x : Str) (ha : a ≠ []) :
    enrichContent a [] x =
      '[' :: ((authorPre ++ a) ++ ']' :: ' ' :: x) := by
  unfold enrichContent
  simp [ha, List.intercalate, List.intersperse, List.append_assoc]

/-- Shape of the enriched content when only the timestamp is present. -/
theorem enrich_time {t : Str} (x : Str) (ht : t ≠ []) :
    enrichContent [] t x =
      '[' :: ((timePre ++ t) ++ ']' :: ' ' :: x) := by
  unfold enrichContent
  simp [ht, List.intercalate, List.intersperse, List.append_assoc]

/-- Shape of the enriched content when no metadata is present. -/
theorem enrich_none (x : Str) : enrichContent [] [] x = x := by
  unfold enrichContent
  simp

/-- Parsing recovers both fields and the text from content enriched
with a clean author and a clean timestamp, provided no spurious
`Time:` occurs before the canonical one. -/
theorem parse_enrich_both {a t x : Str} (ha : cleanField a)
    (ht : cleanField t) (hx : x.takeWhile isSpaceChar = [])
    (hT : ¬ timeLabel <:+: (authorPre ++ (a ++ commaSep))) :
    parseEnriched (enrichContent a t x) = (some a, some t, x) := by
  obtain ⟨ha1, ha2, ha3, ha4⟩ := ha
  obtain ⟨ht1, ht2, ht3, ht4⟩ := ht
  rw [enrich_both x ha1 ht1]
  set seg := authorPre ++ (a ++ (commaSep ++ (timePre ++ t))) with hsegdef
  have hsb : ']' ∉ seg := by
    intro hm
    simp only [hsegdef, List.mem_append] at hm
    rcases hm with hm | hm | hm | hm | hm
    · exact absurd hm (by decide)
    · exact ha4 hm
    · exact absurd hm (by decide)
    · exact absurd hm (by decide)
    · exact ht4 hm
  have hseg : seg ≠ [] := by
    intro hh
    exact absurd (List.append_eq_nil.mp (hsegdef ▸ hh)).1 (by decide)
  have hsplit : bracketSplit ('[' :: (seg ++ ']' :: ' ' :: x)) =
      some (seg, x) := by
    have hs := bracketSplit_eval (w := [' ']) hseg hsb (by simp)
      (by intro c hc; simp at hc; subst hc; decide) hx
    rw [show ([' '] : Str) ++ x = ' ' :: x from rfl] at hs
    exact hs
  have hauthor : searchLabel authorLabel seg = some a := by
    apply searchLabel_here hseg
    · exact (show authorLabel <+: authorPre by decide).trans
        (List.prefix_append _ _)
    · have hd : seg.drop authorLabel.length =
          ' ' :: (a ++ (commaSep ++ (timePre ++ t))) := by
        rw [hsegdef, List.drop_append_of_le_length (by decide)]
        rfl
      rw [hd]
      exact capAfterLabel_clean _ ha1 (pyStrip_fix_take_nil ha2) ha3 ha4
        (Or.inr ⟨' ' :: (timePre ++ t), rfl⟩)
  have htime : searchLabel timeLabel seg = some t := by
    have hassoc : seg = (authorPre ++ (a ++ commaSep)) ++ (timePre ++ t) := by
      rw [hsegdef]
      simp [List.append_assoc]
    rw [hassoc, searchLabel_skip _ _ (no_time_in_region _ hT)]
    apply searchLabel_here (by
      intro hh
      exact absurd (List.append_eq_nil.mp hh).1 (by decide))
    · exact (show timeLabel <+: timePre by decide).trans
        (List.prefix_append _ _)
    · have hd : (timePre ++ t).drop timeLabel.length = ' ' :: (t ++ []) := by
        rw [List.drop_append_of_le_length (by decide), List.append_nil]
        rfl
      rw [hd]
      exact capAfterLabel_clean _ ht1 (pyStrip_fix_take_nil ht2) ht3 ht4
        (Or.inl rfl)
  unfold parseEnriched
  rw [hsplit]
  simp [hauthor, htime, ha2, ht2]

/-- Parsing recovers the author and the text from content enriched
with a clean author and no timestamp, provided the metadata prefix
contains no `Time:`. -/
theorem parse_enrich_author {a x : Str} (ha : cleanField a)
    (hx : x.takeWhile isSpaceChar = [])
    (hT : ¬ timeLabel <:+: (authorPre ++ a)) :
    parseEnriched (enrichContent a [] x) = (some a, none, x) := by
  obtain ⟨ha1, ha2, ha3, ha4⟩ := ha
  rw [enrich_author x ha1]
  set seg := authorPre ++ a with hsegdef
  have hsb : ']' ∉ seg := by
    intro hm
    simp only [hsegdef, List.mem_append] at hm
    rcases hm with hm | hm
    · exact absurd hm (by decide)
    · exact ha4 hm
  have hseg : seg ≠ [] := by
    intro hh
    exact absurd (List.append_eq_nil.mp (hsegdef ▸ hh)).1 (by decide)
  have hsplit : bracketSplit ('[' :: (seg ++ ']' :: ' ' :: x)) =
      some (seg, x) := by
    have hs := bracketSplit_eval (w := [' ']) hseg hsb (by simp)
      (by intro c hc; simp at hc; subst hc; decide) hx
    rw [show ([' '] : Str) ++ x = ' ' :: x from rfl] at hs
    exact hs
  have hauthor : searchLabel authorLabel seg = some a := by
    apply searchLabel_here hseg
    · exact (show authorLabel <+: authorPre by decide).trans
        (List.prefix_append _ _)
    · have hd : seg.drop authorLabel.length = ' ' :: (a ++ []) := by
        rw [hsegdef, List.drop_append_of_le_length (by decide),
          List.append_nil]
        rfl
      rw [hd]
      exact capAfterLabel_clean _ ha1 (pyStrip_fix_take_nil ha2) ha3 ha4
        (Or.inl rfl)
  have htime : searchLabel timeLabel seg = none :=
    searchLabel_none_of_not_found hT
  unfold parseEnriched
  rw [hsplit]
  simp [hauthor, htime, ha2]

/-- Parsing recovers the timestamp and the text from content enriched
with a clean timestamp and no author, provided the metadata prefix
contains no `Author:`. -/
theorem parse_enrich_time {t x : Str} (ht : cleanField t)
    (hx : x.takeWhile isSpaceChar = [])
    (hA : ¬ authorLabel <:+: (timePre ++ t)) :
    parseEnriched (enrichContent [] t x) = (none, some t, x) := by
  obtain ⟨ht1, ht2, ht3, ht4⟩ := ht
  rw [enrich_time x ht1]
  set seg := timePre ++ t with hsegdef
  have hsb : ']' ∉ seg := by
    intro hm
    simp only [hsegdef, List.mem_append] at hm
    rcases hm with hm | hm
    · exact absurd hm (by decide)
    · exact ht4 hm
  have hseg : seg ≠ [] := by
    intro hh
    exact absurd (List.append_eq_nil.mp (hsegdef ▸ hh)).1 (by decide)
  have hsplit : bracketSplit ('[' :: (seg ++ ']' :: ' ' :: x)) =
      some (seg, x) := by
    have hs := bracketSplit_eval (w := [' ']) hseg hsb (by simp)
      (by intro c hc; simp at hc; subst hc; decide) hx
    rw [show ([' '] : Str) ++ x = ' ' :: x from rfl] at hs
    exact hs
  have htime : searchLabel timeLabel seg = some t := by
    apply searchLabel_here hseg
    · exact (show timeLabel <+: timePre by decide).trans
        (List.prefix_append _ _)
    · have hd : seg.drop timeLabel.length = ' ' :: (t ++ []) := by
        rw [hsegdef, List.drop_append_of_le_length (by decide),
          List.append_nil]
        rfl
      rw [hd]
      exact capAfterLabel_clean _ ht1 (pyStrip_fix_take_nil ht2) ht3 ht4
        (Or.inl rfl)
  have hauthor : searchLabel authorLabel seg = none :=
    searchLabel_none_of_not_found hA
  unfold parseEnriched
  rw [hsplit]
  simp [hauthor, htime, ht2]

/-- Characterization of the write loop: the sequence of issued POST
payloads is exactly the payloads of the events with non-empty
extracted text, in event order, regardless of the POST outcomes. -/
theorem addGo_requests (cfg : OpenMemoryServiceConfig) (fmt : ℚ → Str)
    (session : Session) (post : Nat → Bool) :
    ∀ (evs : List Event) (i : Nat),
      (addGo cfg fmt session post evs i).1 =
        (evs.filter fun e => !(_extract_text_from_event e == [])).map
          (payloadOf cfg fmt session) := by
  intro evs
  induction evs with
  | nil => intro i; rfl
  | cons e rest ih =>
    intro i
    by_cases h : _extract_text_from_event e = []
    · simp [addGo, h, List.filter_cons, ih i]
    · simp [addGo, h, List.filter_cons, ih (i + 1), payloadOf]

/-- When no conversion raises, the match loop keeps exactly the
successful conversions, in response order. -/
theorem processMatches_ok {ms : List MatchItem}
    (h : ∀ m ∈ ms, _convert_to_memory_entry m ≠ ConvResult.raised) :
    processMatches ms = some (ms.filterMap convOk) := by
  induction ms with
  | nil => rfl
  | cons m rest ih =>
    have hm := h m (List.mem_cons_self m rest)
    have hrest : ∀ m' ∈ rest, _convert_to_memory_entry m' ≠
        ConvResult.raised :=
      fun m' hm' => h m' (List.mem_cons_of_mem _ hm')
    cases hc : _convert_to_memory_entry m with
    | ok e =>
      simp [processMatches, hc, ih hrest, List.filterMap_cons, convOk]
    | dropped =>
      simp [processMatches, hc, ih hrest, List.filterMap_cons, convOk]
    | raised => exact absurd hc hm

/-- When some conversion raises, the match loop is aborted and every
accumulated entry is discarded. -/
theorem processMatches_raised {ms : List MatchItem}
    (h : ∃ m ∈ ms, _convert_to_memory_entry m = ConvResult.raised) :
    processMatches ms = none := by
  induction ms with
  | nil =>
    rcases h with ⟨m, hm, -⟩
    exact absurd hm (List.not_mem_nil m)
  | cons m rest ih =>
    rcases h with ⟨m', hm', hc'⟩
    rcases List.mem_cons.mp hm' with rfl | hmem
    · simp [processMatches, hc']
    · cases hc : _convert_to_memory_entry m with
      | ok e => simp [processMatches, hc, ih ⟨m', hmem, hc'⟩]
      | dropped => simpa [processMatches, hc] using ih ⟨m', hmem, hc'⟩
      | raised => simp [processMatches, hc]

/-- Tags attached by `_prepare_memory_data`: present iff tagging is
enabled, and then exactly session, app and (for a truthy author)
author tags, in that order. -/
theorem prepare_tags (cfg : OpenMemoryServiceConfig) (fmt : ℚ → Str)
    (event : Event) (content_text : Str) (session : Session) :
    (_prepare_memory_data cfg fmt event content_text session).tags =
      if cfg.enable_metadata_tags then
        some ([sessionTagHead ++ session.id,
          appTagHead ++ session.app_name] ++
          (if event.author ≠ [] then [authorTagHead ++ event.author]
           else []))
      else none := by
  rcases cfg with ⟨k, tmo, us, ms', ds, em⟩
  cases em with
  | false => rfl
  | true =>
    by_cases hA : event.author = []
    · show (some ((([some (sessionTagHead ++ session.id),
          some (appTagHead ++ session.app_name),
          if event.author ≠ [] then some (authorTagHead ++ event.author)
          else none] : List (Option Str)).filterMap id).filter
          fun t => !(t == [])) : Option (List Str)) =
        some ([sessionTagHead ++ session.id,
          appTagHead ++ session.app_name] ++
          (if event.author ≠ [] then [authorTagHead ++ event.author]
           else []))
      rw [hA]
      rfl
    · show (some ((([some (sessionTagHead ++ session.id),
          some (appTagHead ++ session.app_name),
          if event.author ≠ [] then some (authorTagHead ++ event.author)
          else none] : List (Option Str)).filterMap id).filter
          fun t => !(t == [])) : Option (List Str)) =
        some ([sessionTagHead ++ session.id,
          appTagHead ++ session.app_name] ++
          (if event.author ≠ [] then [authorTagHead ++ event.author]
           else []))
      rw [if_pos hA, if_pos hA]
      rfl

/-- Claim C3: for every query, a non-success HTTP status or transport
failure during `search_memory` yields a response containing zero
memories; the embedding `search_memory` is a total function, so the
error never propagates to the caller. -/
theorem claim3_search_failure_empty (cfg : OpenMemoryServiceConfig)
    (app_name user_id query : Str) :
    search_memory cfg app_name user_id query SearchOutcome.failure =
      { memories := [] } := rfl

/-- Claim C4: the salience of a write payload is a case-insensitive
lookup on the author — lower-cased `user` gives the configured user
salience, `model` the model salience, and any other or missing author
the default salience; with the default configuration, the sample
authors `USER`, `Model`, `system` and a missing author give 0.8, 0.7,
0.6 and 0.6 respectively. -/
theorem claim4_salience :
    (∀ (cfg : OpenMemoryServiceConfig) (a : Option Str),
      _determine_salience cfg a =
        if pyLower (a.getD []) = userWord then cfg.user_content_salience
        else if pyLower (a.getD []) = modelWord then
          cfg.model_content_salience
        else cfg.default_salience) ∧
    _determine_salience defaultConfig (some litUserUpper) =
      defaultConfig.user_content_salience ∧
    _determine_salience defaultConfig (some litModelCap) =
      defaultConfig.model_content_salience ∧
    _determine_salience defaultConfig (some litSystem) =
      defaultConfig.default_salience ∧
    _determine_salience defaultConfig none =
      defaultConfig.default_salience := by
  refine ⟨?_, rfl, rfl, rfl, rfl⟩
  rintro cfg (_ | a)
  · show cfg.default_salience =
      if pyLower [] = userWord then cfg.user_content_salience
      else if pyLower [] = modelWord then cfg.model_content_salience
      else cfg.default_salience
    rw [if_neg (by decide), if_neg (by decide)]
  · by_cases h0 : a = []
    · subst h0
      show cfg.default_salience =
        if pyLower [] = userWord then cfg.user_content_salience
        else if pyLower [] = modelWord then cfg.model_content_salience
        else cfg.default_salience
      rw [if_neg (by decide), if_neg (by decide)]
    · simp only [_determine_salience, Option.getD]
      rw [if_neg h0]

/-- Claim C6: the query payload is exactly
`{query, k: search_top_k, filter: {user_id}}`, with the filter
extended by `tags: [app:<app name>]` iff tagging is enabled; in
particular with `search_top_k = 5` the body carries `k: 5`. -/
theorem claim6_search_payload :
    (∀ (cfg : OpenMemoryServiceConfig) (app_name user_id query : Str),
      _build_search_payload cfg app_name user_id query =
        [(queryKey, PVal.pstr query),
         (kKey, PVal.pnat cfg.search_top_k),
         (filterKey, PVal.pfilter
           ((userIdKey, FVal.fstr user_id) ::
             (if cfg.enable_metadata_tags then
               [(tagsKey, FVal.ftags [appTagHead ++ app_name])]
             else [])))]) ∧
    (∀ (app_name user_id query : Str),
      dictGet (_build_search_payload
          { defaultConfig with search_top_k := 5 } app_name user_id query)
        kKey = some (PVal.pnat 5)) := by
  constructor
  · intro cfg app_name user_id query
    by_cases h : cfg.enable_metadata_tags <;>
      simp [_build_search_payload, searchFilter, h]
  · intro app_name user_id query
    rfl

/-- Claim C8: with tagging enabled the prepared tags are exactly
`session:<id>`, `app:<name>`, `author:<author>` in that order, the
author tag omitted for a falsy author; with tagging disabled the
prepared data has no `tags` key, the write payload carries an empty
tag sequence, and the query filter has no `tags` key. -/
theorem claim8_tags (cfg : OpenMemoryServiceConfig) (fmt : ℚ → Str)
    (event : Event) (content_text : Str) (session : Session)
    (app_name user_id : Str) :
    ((_prepare_memory_data cfg fmt event content_text session).tags =
      if cfg.enable_metadata_tags then
        some ([sessionTagHead ++ session.id,
          appTagHead ++ session.app_name] ++
          (if event.author ≠ [] then [authorTagHead ++ event.author]
           else []))
      else none) ∧
    ((payloadOf cfg fmt session event).tags =
      if cfg.enable_metadata_tags then
        [sessionTagHead ++ session.id, appTagHead ++ session.app_name] ++
          (if event.author ≠ [] then [authorTagHead ++ event.author]
           else [])
      else []) ∧
    ((searchFilter cfg app_name user_id).map Prod.fst =
      if cfg.enable_metadata_tags then [userIdKey, tagsKey]
      else [userIdKey]) := by
  refine ⟨prepare_tags cfg fmt event content_text session, ?_, ?_⟩
  · have h2 : (payloadOf cfg fmt session event).tags =
        (_prepare_memory_data cfg fmt event
          (_extract_text_from_event event) session).tags.getD [] := rfl
    rw [h2, prepare_tags]
    by_cases hE : cfg.enable_metadata_tags <;> simp [hE]
  · by_cases hE : cfg.enable_metadata_tags <;> simp [searchFilter, hE]

/-- Claim C2: the sequence of POSTs issued by `add_session_to_memory`
does not depend on the outcomes of the POSTs — a failure on one event
never prevents subsequent events from being attempted — and the
operation returns normally (the embedding is total).  On the concrete
two-event session with the first POST failing, both POSTs are still
issued and one memory is recorded as added. -/
theorem claim2_failure_isolation :
    (∀ (cfg : OpenMemoryServiceConfig) (fmt : ℚ → Str) (session : Session)
      (post post' : Nat → Bool),
      (add_session_to_memory cfg fmt session post).1 =
        (add_session_to_memory cfg fmt session post').1) ∧
    (add_session_to_memory defaultConfig noFmt wSession
      failFirstPost).1.length = 2 ∧
    (add_session_to_memory defaultConfig noFmt wSession
      failFirstPost).2 = 1 := by
  refine ⟨?_, by decide, by decide⟩
  intro cfg fmt session post post'
  unfold add_session_to_memory
  rw [addGo_requests cfg fmt session post, addGo_requests cfg fmt session post']

/-- Claim C7: an event whose extracted text is empty contributes no
POST — the issued payload sequence is exactly the payloads of the
events with non-empty text — and extraction is the space-separated
concatenation of the non-empty texts of the content parts. -/
theorem claim7_empty_text_skip :
    (∀ (cfg : OpenMemoryServiceConfig) (fmt : ℚ → Str) (session : Session)
      (post : Nat → Bool),
      (add_session_to_memory cfg fmt session post).1 =
        (session.events.filter fun e =>
          !(_extract_text_from_event e == [])).map
          (payloadOf cfg fmt session)) ∧
    (∀ event : Event, _extract_text_from_event event =
      match event.content with
      | none => []
      | some content =>
        List.intercalate [' ']
          ((content.parts.filterMap Part.text).filter
            fun t => !(t == []))) := by
  constructor
  · intro cfg fmt session post
    exact addGo_requests cfg fmt session post session.events 0
  · intro event
    rcases event with ⟨eid, einv, ea, ets, ec⟩
    cases ec with
    | none => rfl
    | some content =>
      rcases content with ⟨parts⟩
      show (if parts = [] then [] else
          List.intercalate [' ']
            (parts.filterMap fun p =>
              match p.text with
              | some t => if t = [] then none else some t
              | none => none)) =
        List.intercalate [' ']
          ((parts.filterMap Part.text).filter fun t => !(t == []))
      rw [List.filter_filterMap]
      by_cases hp : parts = []
      · subst hp
        rfl
      · rw [if_neg hp]
        congr 1
        congr 1
        funext p
        rcases p with ⟨pt⟩
        cases pt with
        | none => rfl
        | some t =>
          by_cases ht : t = [] <;> simp [Option.filter, ht, Part.text]

/-- Claim C5: in a backend response in which no match makes conversion
raise, every match whose conversion fails with a data error (such as a
missing `content` key) is dropped, and the remaining valid matches are
returned in backend order. -/
theorem claim5_drop_malformed (cfg : OpenMemoryServiceConfig)
    (app_name user_id query : Str) (ms : List MatchItem)
    (h : ∀ m ∈ ms, _convert_to_memory_entry m ≠ ConvResult.raised) :
    search_memory cfg app_name user_id query (SearchOutcome.success ms) =
      { memories := ms.filterMap convOk } := by
  simp only [search_memory]
  rw [processMatches_ok h]

/-- Witness for C5: a malformed match without `content` sandwiched
between two valid matches is dropped while both valid matches are
returned, in order. -/
theorem claim5_drop_malformed_witness :
    search_memory defaultConfig litApp litUserId litTextA
      (SearchOutcome.success [wMatchA, wMatchNoContent, wMatchB]) =
      { memories := [wEntryA, wEntryB] } := by
  have h := claim5_drop_malformed defaultConfig litApp litUserId litTextA
    [wMatchA, wMatchNoContent, wMatchB] (by decide)
  rw [h]
  decide

/-- Claim C9: conversion recovers from `KeyError`/`ValueError` only;
a match whose `content` is not a string makes the conversion raise an
uncaught error, and `search_memory` then returns an empty response,
discarding every match of that response. -/
theorem claim9_uncaught_discards_all (cfg : OpenMemoryServiceConfig)
    (app_name user_id query : Str) (ms : List MatchItem)
    (h : ∃ m ∈ ms, _convert_to_memory_entry m = ConvResult.raised) :
    search_memory cfg app_name user_id query (SearchOutcome.success ms) =
      { memories := [] } := by
  simp only [search_memory]
  rw [processMatches_raised h]

/-- Witness for C9: a response holding one well-formed match and one
match with a numeric `content` yields an empty result, the well-formed
match included in the loss. -/
theorem claim9_uncaught_discards_all_witness :
    search_memory defaultConfig litApp litUserId litTextA
      (SearchOutcome.success [wMatchA, wMatchNum]) =
      { memories := [] } :=
  claim9_uncaught_discards_all defaultConfig litApp litUserId litTextA
    [wMatchA, wMatchNum] (by decide)

/-- Claim C10: any match content beginning with a non-empty bracketed
segment followed by whitespace has that prefix stripped — the returned
content is the remainder — and when the segment contains no `Author:`
and no `Time:` occurrence the parse yields no author and no
timestamp. -/
theorem claim10_strip_bracket (s w r : Str) (hs : s ≠ []) (hsb : ']' ∉ s)
    (hw : w ≠ []) (hwall : ∀ c ∈ w, isSpaceChar c = true)
    (hr : r.takeWhile isSpaceChar = []) :
    (parseEnriched ('[' :: (s ++ ']' :: (w ++ r)))).2.2 = r ∧
    (¬ authorLabel <:+: s → ¬ timeLabel <:+: s →
      parseEnriched ('[' :: (s ++ ']' :: (w ++ r))) = (none, none, r)) := by
  have hsplit := bracketSplit_eval hs hsb hw hwall hr
  constructor
  · unfold parseEnriched
    rw [hsplit]
  · intro hA hT
    unfold parseEnriched
    rw [hsplit]
    simp [searchLabel_none_of_not_found hA,
      searchLabel_none_of_not_found hT]

/-- Witness for C10: the content `[note] hello`, never produced by the
add path, still has its bracketed segment stripped and parses to the
bare remainder with no author and no timestamp. -/
theorem claim10_strip_bracket_witness :
    parseEnriched ('[' :: (litNote ++ ']' :: ([' '] ++ litHello))) =
      (none, none, litHello) :=
  (claim10_strip_bracket litNote [' '] litHello (by decide) (by decide)
    (by decide) (by decide) (by decide)).2 (by decide) (by decide)

/-- Counterexample to C1 as stated: with no author and no timestamp
the written content is the raw text, but for a text that itself starts
with a bracketed segment — here `[note] hi` — parsing does not return
the full original string as content, so the unconditional round-trip
claim fails. -/
theorem claim1_counterexample :
    enrichContent [] [] cexText = cexText ∧
    parseEnriched cexText ≠ (none, none, cexText) := by
  constructor
  · decide
  · decide

/-- Claim C1 (amended): the enriched-content round-trip holds in all
three metadata cases under the conditions the parser's regexes force:
a present author or timestamp round-trips when it is non-empty, fixed
by `strip()` and free of `,` and `]`; the label `Time:` must not occur
before the canonical `Time:` field (in particular not inside the
author), and symmetrically `Author:` must not occur in a
timestamp-only prefix; the text must not start with whitespace; and
with no metadata at all the text round-trips exactly when it does not
itself begin with a bracketed segment followed by whitespace. -/
theorem claim1_roundtrip_amended (a t x : Str) :
    (cleanField a → cleanField t → x.takeWhile isSpaceChar = [] →
      ¬ timeLabel <:+: (authorPre ++ (a ++ commaSep)) →
      enrichContent a t x =
        '[' :: ((authorPre ++ (a ++ (commaSep ++ (timePre ++ t)))) ++
          ']' :: ' ' :: x) ∧
      parseEnriched (enrichContent a t x) = (some a, some t, x)) ∧
    (cleanField a → x.takeWhile isSpaceChar = [] →
      ¬ timeLabel <:+: (authorPre ++ a) →
      enrichContent a [] x =
        '[' :: ((authorPre ++ a) ++ ']' :: ' ' :: x) ∧
      parseEnriched (enrichContent a [] x) = (some a, none, x)) ∧
    (cleanField t → x.takeWhile isSpaceChar = [] →
      ¬ authorLabel <:+: (timePre ++ t) →
      enrichContent [] t x =
        '[' :: ((timePre ++ t) ++ ']' :: ' ' :: x) ∧
      parseEnriched (enrichContent [] t x) = (none, some t, x)) ∧
    (enrichContent [] [] x = x ∧
      (bracketSplit x = none → parseEnriched x = (none, none, x))) := by
  refine ⟨fun ha ht hx hT => ⟨enrich_both x ha.1 ht.1,
      parse_enrich_both ha ht hx hT⟩,
    fun ha hx hT => ⟨enrich_author x ha.1,
      parse_enrich_author ha hx hT⟩,
    fun ht hx hA => ⟨enrich_time x ht.1,
      parse_enrich_time ht hx hA⟩,
    enrich_none x, fun hb => ?_⟩
  unfold parseEnriched
  rw [hb]

/-- Witness for C1 (amended): author `user`, formatted time
`2025-11-04 10:30` and text `Hello, I like Python.` round-trip
exactly. -/
theorem claim1_roundtrip_amended_witness :
    parseEnriched (enrichContent userWord litTime litTextA) =
      (some userWord, some litTime, litTextA) :=
  ((claim1_roundtrip_amended userWord litTime litTextA).1
    (by decide) (by decide) (by decide) (by decide)).2

end OpenMemory
